import Mathlib

/-!
Shallow embedding of the retry-queue core of the edx-xapi-bridge repository
(`xapi_bridge/retry_queue.py` and the default `is_not_found` of
`xapi_bridge/lrs_backends/base.py`), together with theorems settling the
frozen claims about it.

Modelling conventions:
* The queue file is a list of lines.  A line is either blank (strips to the
  empty string), malformed (its text does not parse as JSON), or a parsed
  JSON-object record with optional `content` (a string) and optional
  `ready_at` (an integer) fields.  Lines whose JSON parses to a non-object,
  or whose `ready_at` is not integer-convertible, are outside the model
  (on them the Python code raises instead of skipping; no claim concerns
  them).
* Python truthiness of `rec.get('content')` is: absent or empty string is
  falsy.  Truthiness of the `RETRY_DAILY_AT` / `RETRY_SINK_FILE` settings
  is: absent or empty string is falsy.  Truthiness of `delay_seconds or
  retry_delay` is: `None` and `0` fall through to `retry_delay`.
* `time.time()` is passed explicitly as `now`; within one worker cycle the
  same `now` is used everywhere (the code re-reads the clock, the claims
  say "approximately").
* `json.loads` / `json.dumps` on sink payloads are environment functions
  (`parse`, `dumps`) supplied as parameters; the network send is an oracle
  `send : String → SendOutcome` covering the three observable outcomes of
  `lrs.save_statements`: success, an unsuccessful `LRSResponse` carrying a
  status and an optional integral `Retry-After` header, or a raised
  exception (transport-level or otherwise).
-/

namespace RetryQueueModel

/-- A parsed stored record: JSON object with optional `content` and
`ready_at` fields (`rec.get` returns `None` when absent). -/
structure Record where
  content : Option String
  ready_at : Option Int
deriving DecidableEq

/-- One line of the queue file, as `read_ready` sees it after `strip()`. -/
inductive Line where
  | blank : Line
  | malformed (raw : String) : Line
  | record (rec : Record) : Line
deriving DecidableEq

/-- Python truthiness of `rec.get('content')`: absent or `""` is falsy. -/
def contentTruthy (r : Record) : Bool :=
  match r.content with
  | some s => !s.isEmpty
  | none => false

/-- `int(rec.get('ready_at', 0))`: absent defaults to `0`. -/
def getReadyAt (r : Record) : Int :=
  r.ready_at.getD 0

/-- `rec['content']` for a record whose content check passed. -/
def getContent (r : Record) : String :=
  r.content.getD ""

/-- The configuration surface read by the queue: `RETRY_DAILY_AT`,
`RETRY_DELAY_SECONDS`, `RETRY_SINK_FILE` (each `getattr` with default
`None` resp. `0`). -/
structure Config where
  retryDailyAt : Option String
  retryDelaySeconds : Option Int
  sinkFile : Option String

/-- `if getattr(settings, 'RETRY_DAILY_AT', None):` — Python truthiness. -/
def dailyConfigured (cfg : Config) : Bool :=
  match cfg.retryDailyAt with
  | some s => !s.isEmpty
  | none => false

/-- `if self.sink_file:` — Python truthiness of `RETRY_SINK_FILE`. -/
def sinkConfigured (cfg : Config) : Bool :=
  match cfg.sinkFile with
  | some s => !s.isEmpty
  | none => false

/-- The `ready_at` computed by `RetryQueue.enqueue` (lines 35-42):
in daily mode `now`; otherwise `now + int(delay_seconds or retry_delay)`
with `retry_delay = int(getattr(settings, 'RETRY_DELAY_SECONDS', 0) or 0)`.
Python `or` sends both `None` and `0` to the fallback. -/
def enqueueReadyAt (cfg : Config) (now : Int) (delaySeconds : Option Int) : Int :=
  if dailyConfigured cfg then now
  else
    let retryDelay : Int := cfg.retryDelaySeconds.getD 0
    now + (match delaySeconds with
           | some d => if d = 0 then retryDelay else d
           | none => retryDelay)

/-- `RetryQueue.enqueue` (lines 35-48): appends one serialized record line
`{'content': content_json, 'ready_at': ready_at}` to the queue file. -/
def enqueue (cfg : Config) (now : Int) (q : List Line) (content : String)
    (delaySeconds : Option Int) : List Line :=
  q ++ [Line.record ⟨some content, some (enqueueReadyAt cfg now delaySeconds)⟩]

/-- The selection test of `read_ready` line 67:
`int(rec.get('ready_at', 0)) <= now and rec.get('content')`. -/
def isReadyRecord (now : Int) (r : Record) : Bool :=
  decide (getReadyAt r ≤ now) && contentTruthy r

/-- The loop body of `RetryQueue.read_ready` (lines 56-70): blank lines are
skipped, unparseable lines are skipped, a record passing the selection test
contributes its `content` to the returned list, every other record line is
kept for the rewrite. -/
def readReadyAux (now : Int) : List Line → List String × List Line
  | [] => ([], [])
  | Line.blank :: rest => readReadyAux now rest
  | Line.malformed _ :: rest => readReadyAux now rest
  | Line.record rec :: rest =>
      if isReadyRecord now rec then
        (getContent rec :: (readReadyAux now rest).1, (readReadyAux now rest).2)
      else
        ((readReadyAux now rest).1, Line.record rec :: (readReadyAux now rest).2)

/-- `RetryQueue.read_ready` (lines 50-76): returns the ready contents and
rewrites the file to the remaining lines (`'\x7bn'.join(remaining_lines)`).
The first component is the returned list, the second the rewritten file. -/
def readReady (q : List Line) (now : Int) : List String × List Line :=
  readReadyAux now q

/-- The records among the file's lines (well-formed parsed lines). -/
def validRecords (q : List Line) : List Record :=
  q.filterMap fun l =>
    match l with
    | Line.record r => some r
    | _ => none

/-- The records a `read_ready` call at time `now` selects and returns. -/
def extractedRecords (q : List Line) (now : Int) : List Record :=
  (validRecords q).filter (isReadyRecord now)

/-- A line that `read_ready` at time `now` keeps in the rewritten file. -/
def keepLine (now : Int) : Line → Bool
  | Line.record r => !isReadyRecord now r
  | _ => false

/-- Iterated extraction: the queue file left after `read_ready` calls at
the given sequence of times. -/
def multiExtract : List Int → List Line → List Line
  | [], q => q
  | t :: ts, q => multiExtract ts (readReady q t).2

/-- All records returned across a sequence of `read_ready` calls at the
given times. -/
def multiExtracted : List Int → List Line → List Record
  | [], _ => []
  | t :: ts, q => extractedRecords q t ++ multiExtracted ts (readReady q t).2

theorem readReady_fst (q : List Line) (now : Int) :
    (readReady q now).1 = (extractedRecords q now).map getContent := by
  induction q with
  | nil => rfl
  | cons l rest ih =>
    cases l with
    | blank => simpa [readReady, readReadyAux, extractedRecords, validRecords] using ih
    | malformed raw =>
        simpa [readReady, readReadyAux, extractedRecords, validRecords] using ih
    | record rec =>
        by_cases h : isReadyRecord now rec
        · simp [readReady, readReadyAux, extractedRecords, validRecords, h] at ih ⊢
          exact ih
        · simp [readReady, readReadyAux, extractedRecords, validRecords, h] at ih ⊢
          exact ih

theorem readReady_snd (q : List Line) (now : Int) :
    (readReady q now).2 = q.filter (keepLine now) := by
  induction q with
  | nil => rfl
  | cons l rest ih =>
    cases l with
    | blank => simpa [readReady, readReadyAux, keepLine] using ih
    | malformed raw => simpa [readReady, readReadyAux, keepLine] using ih
    | record rec =>
        by_cases h : isReadyRecord now rec
        · simp [readReady, readReadyAux, keepLine, h] at ih ⊢
          exact ih
        · simp [readReady, readReadyAux, keepLine, h] at ih ⊢
          exact ih

theorem validRecords_readReady_snd (q : List Line) (now : Int) :
    validRecords (readReady q now).2
      = (validRecords q).filter (fun r => !isReadyRecord now r) := by
  rw [readReady_snd]
  induction q with
  | nil => rfl
  | cons l rest ih =>
    cases l with
    | blank => simpa [validRecords, keepLine] using ih
    | malformed raw => simpa [validRecords, keepLine] using ih
    | record rec =>
        by_cases h : isReadyRecord now rec
        · simp [validRecords, keepLine, h] at ih ⊢
          exact ih
        · simp [validRecords, keepLine, h] at ih ⊢
          exact ih

/-- A parsed JSON value, as far as the sink logic inspects it: the only
structural test performed is `isinstance(parsed, list)`. -/
inductive Json where
  | null : Json
  | bool (b : Bool) : Json
  | num (n : Int) : Json
  | str (s : String) : Json
  | arr (elems : List Json) : Json
  | obj (fields : List (String × Json)) : Json

/-- `isinstance(parsed, list)`. -/
def isArr : Json → Bool
  | Json.arr _ => true
  | _ => false

/-- Body of `RetryQueue._save_to_sink` (lines 87-97), also inlined in
`RetryQueueWorker._process_batch` (lines 179-189): a successfully parsed
list is written one dumped element per line, any other parsed value as one
dumped line, and on a parse failure the raw content is appended verbatim as
one line.  `dumps` stands for `json.dumps`, `parsed` for the outcome of
`json.loads(content_json)` (`none` = raised). -/
def sinkAppend (dumps : Json → String) (sink : List String)
    (contentJson : String) (parsed : Option Json) : List String :=
  match parsed with
  | some (Json.arr elems) => sink ++ elems.map dumps
  | some j => sink ++ [dumps j]
  | none => sink ++ [contentJson]

/-- `RetryQueue._save_to_sink` (lines 78-99) including the early return
when `RETRY_SINK_FILE` is unset or falsy. -/
def saveToSink (cfg : Config) (dumps : Json → String) (sink : List String)
    (contentJson : String) (parsed : Option Json) : List String :=
  if sinkConfigured cfg then sinkAppend dumps sink contentJson parsed
  else sink

/-- Default `LRSBackendBase.is_not_found` (base.py lines 68-74):
`status_code == 404`; the worker passes `getattr(response.response,
'status', None)`, so the status may be absent. -/
def is_not_found (status : Option Int) : Bool :=
  status = some 404

/-- `status in {408, 429, 500, 502, 503, 504}` (retry_queue.py line 202). -/
def retryableStatus (status : Option Int) : Bool :=
  match status with
  | some n => n = 408 || n = 429 || n = 500 || n = 502 || n = 503 || n = 504
  | none => false

/-- The observable outcome of one `lrs.save_statements(payload)` call:
success; an unsuccessful response with its HTTP status and the integral
value of a present `Retry-After` header (`none` when the header is absent,
empty, or not an integer); or a raised exception — `transport := true` for
the `ConnectionRefusedError`/`ConnectionResetError`/`BrokenPipeError`/
`TimeoutError` branch, `false` for the generic `Exception` branch. -/
inductive SendOutcome where
  | success : SendOutcome
  | httpFailure (status : Option Int) (retryAfter : Option Int) : SendOutcome
  | raised (transport : Bool) : SendOutcome

/-- The worker's environment: the network send oracle and the JSON
parse/serialize functions used by the sink path. -/
structure Env where
  send : String → SendOutcome
  parse : String → Option Json
  dumps : Json → String

/-- Durable state touched by the worker: the queue file and the sink file. -/
structure BState where
  queue : List Line
  sink : List String

/-- One iteration of the loop of `RetryQueueWorker._process_batch`
(lines 175-234) on a single content string.  With a sink file configured
the content is archived to the sink (lines 177-190, always counted ok).
Otherwise `payload = json.loads(content_json)` runs first (line 193),
inside the outer `try` but before the inner one: a parse failure is caught
by the outer `except Exception` (lines 232-234), which clears `all_ok`,
logs, and drops the record — no re-enqueue and no delivery attempt.  When
the content parses it is sent: an unsuccessful response with a not-found
or retryable status is re-queued with the Retry-After delay when available
(lines 196-217), any other error status is logged and dropped (lines
218-219), and both exception branches re-queue with no delay (lines
222-231).  The returned Bool is this record's contribution to `all_ok`. -/
def processRecord (cfg : Config) (env : Env) (now : Int) (st : BState)
    (content : String) : Bool × BState :=
  if sinkConfigured cfg then
    (true, { st with sink := sinkAppend env.dumps st.sink content (env.parse content) })
  else
    match env.parse content with
    | none => (false, st)
    | some _ =>
        match env.send content with
        | SendOutcome.success => (true, st)
        | SendOutcome.httpFailure status retryAfter =>
            if is_not_found status || retryableStatus status then
              (false, { st with queue := enqueue cfg now st.queue content retryAfter })
            else
              (false, st)
        | SendOutcome.raised transport =>
            if transport then
              (false, { st with queue := enqueue cfg now st.queue content none })
            else
              (false, { st with queue := enqueue cfg now st.queue content none })

/-- `RetryQueueWorker._process_batch` (lines 173-235): folds
`processRecord` over the batch, accumulating `all_ok`. -/
def processBatch (cfg : Config) (env : Env) (now : Int) (st : BState)
    (contents : List String) : Bool × BState :=
  contents.foldl
    (fun acc c =>
      let step := processRecord cfg env now acc.2 c
      (acc.1 && step.1, step.2))
    (true, st)

/-- The re-queue loop of `RetryQueueWorker.run` lines 160-162:
`for content_json in rest: self.queue.enqueue(content_json)`. -/
def requeueRest (cfg : Config) (now : Int) (st : BState)
    (rest : List String) : BState :=
  rest.foldl (fun s c => { s with queue := enqueue cfg now s.queue c none }) st

/-- The body of one daily window of `RetryQueueWorker.run` (lines 148-164):
extract the ready contents; if none, do nothing; otherwise probe with the
first, on success process the rest, on failure re-enqueue the rest without
attempting them.  The second component lists the contents handed to
`_process_batch` during the cycle (the attempted ones). -/
def runCycle (cfg : Config) (env : Env) (now : Int) (st : BState) :
    BState × List String :=
  let extraction := readReady st.queue now
  let st1 : BState := { st with queue := extraction.2 }
  match extraction.1 with
  | [] => (st1, [])
  | _ :: _ =>
      let first := extraction.1.take 1
      let rest := extraction.1.drop 1
      let probe := processBatch cfg env now st1 first
      if probe.1 && !rest.isEmpty then
        ((processBatch cfg env now probe.2 rest).2, first ++ rest)
      else if !probe.1 && !rest.isEmpty then
        (requeueRest cfg now probe.2 rest, first)
      else
        (probe.2, first)

/-- A file line that fails JSON parsing. -/
def isMalformedLine : Line → Bool
  | Line.malformed _ => true
  | _ => false

lemma count_filter_partition (rs : List Record) (p : Record → Bool) (rec : Record) :
    (rs.filter p).count rec + (rs.filter fun r => !p r).count rec = rs.count rec := by
  by_cases h : p rec
  · rw [List.count_filter h]
    have hnot : rec ∉ rs.filter fun r => !p r := by
      intro hm
      have := List.of_mem_filter hm
      simp [h] at this
    rw [List.count_eq_zero.mpr hnot]
    omega
  · have hb : (!p rec) = true := by simp [h]
    rw [List.count_filter (p := fun r => !p r) hb]
    have hnot : rec ∉ rs.filter p := fun hm => h (List.of_mem_filter hm)
    rw [List.count_eq_zero.mpr hnot]
    omega

lemma extracted_add_remaining_count (q : List Line) (now : Int) (rec : Record) :
    (extractedRecords q now).count rec
      + (validRecords (readReady q now).2).count rec
      = (validRecords q).count rec := by
  rw [validRecords_readReady_snd]
  exact count_filter_partition (validRecords q) (isReadyRecord now) rec

lemma multiExtracted_count_le (ts : List Int) (q : List Line) (rec : Record) :
    (multiExtracted ts q).count rec ≤ (validRecords q).count rec := by
  induction ts generalizing q with
  | nil => simp [multiExtracted]
  | cons t ts ih =>
      have step := extracted_add_remaining_count q t rec
      have := ih (readReady q t).2
      simp only [multiExtracted, List.count_append]
      omega

/-- C1: one `read_ready` call partitions the stored records: the records it
returns plus the records it leaves in the rewritten file account for every
valid pre-call record exactly once (multiset equation), the two parts are
disjoint, and across any sequence of later calls a stored record occurrence
is extracted at most once unless re-enqueued. -/
theorem read_ready_partitions (q : List Line) (now : Int) (rec : Record) :
    (readReady q now).1 = (extractedRecords q now).map getContent
    ∧ (extractedRecords q now).count rec
        + (validRecords (readReady q now).2).count rec
        = (validRecords q).count rec
    ∧ (rec ∈ extractedRecords q now → rec ∉ validRecords (readReady q now).2)
    ∧ (∀ ts : List Int, (multiExtracted ts q).count rec ≤ (validRecords q).count rec) := by
  refine ⟨readReady_fst q now, extracted_add_remaining_count q now rec, ?_, ?_⟩
  · intro hin hrem
    have h1 : isReadyRecord now rec = true := List.of_mem_filter hin
    rw [validRecords_readReady_snd] at hrem
    have h2 := List.of_mem_filter hrem
    simp [h1] at h2
  · intro ts
    exact multiExtracted_count_le ts q rec

/-- Closed instance of `read_ready_partitions`: a concrete extracted record
is no longer among the valid records of the rewritten file. -/
theorem read_ready_partitions_witness :
    (⟨some "a", some 0⟩ : Record) ∈ extractedRecords [Line.record ⟨some "a", some 0⟩] 5
    ∧ (⟨some "a", some 0⟩ : Record) ∉ validRecords (readReady [Line.record ⟨some "a", some 0⟩] 5).2 :=
  ⟨by decide, (read_ready_partitions [Line.record ⟨some "a", some 0⟩] 5 ⟨some "a", some 0⟩).2.2.1 (by decide)⟩

/-- C2 counterexample: a stored record whose `ready_at` (0) has passed at
`now = 10` but whose content is the empty string is neither returned nor
removed by `read_ready`, contradicting the claim that extraction returns
exactly the records with `ready_at <= now` and keeps only not-yet-ready
records. -/
theorem read_ready_skips_ready_empty_content :
    getReadyAt ⟨some "", some 0⟩ ≤ 10
    ∧ readReady [Line.record ⟨some "", some 0⟩] 10
        = ([], [Line.record ⟨some "", some 0⟩]) :=
  ⟨by decide, rfl⟩

/-- C2 (amended): `read_ready` returns exactly the records with
`ready_at <= now` AND non-empty content, in original insertion order, and
rewrites the file to exactly the other record lines in their relative
order; a non-empty-content record with future `ready_at`, stored once, is
excluded now and extracted exactly once by a later call at or after its
`ready_at`. -/
theorem read_ready_returns_ready_nonempty (q : List Line) (now now2 : Int)
    (rec : Record) :
    (readReady q now).1
        = ((validRecords q).filter (isReadyRecord now)).map getContent
    ∧ (readReady q now).2 = q.filter (keepLine now)
    ∧ (contentTruthy rec = true → now < getReadyAt rec →
        rec ∉ extractedRecords q now)
    ∧ (contentTruthy rec = true → now < getReadyAt rec → getReadyAt rec ≤ now2 →
        (validRecords q).count rec = 1 →
        (extractedRecords (readReady q now).2 now2).count rec = 1) := by
  have hfst := readReady_fst q now
  have hnotready : now < getReadyAt rec → isReadyRecord now rec = false := by
    intro hlt
    simp only [isReadyRecord, Bool.and_eq_false_imp]
    simp [decide_eq_true_eq, not_le.mpr hlt]
  refine ⟨hfst, readReady_snd q now, ?_, ?_⟩
  · intro htr hlt hin
    have h1 : isReadyRecord now rec = true := List.of_mem_filter hin
    rw [hnotready hlt] at h1
    exact Bool.false_ne_true h1
  · intro htr hlt hle hcount
    have hnr := hnotready hlt
    have hkeep : (validRecords (readReady q now).2).count rec
        = (validRecords q).count rec := by
      rw [validRecords_readReady_snd]
      have hb : (fun r => !isReadyRecord now r) rec = true := by simp [hnr]
      rw [List.count_filter (p := fun r => !isReadyRecord now r) hb]
    have hready2 : isReadyRecord now2 rec = true := by
      simp [isReadyRecord, hle, htr]
    rw [extractedRecords, List.count_filter (p := isReadyRecord now2) hready2,
      hkeep, hcount]

/-- Closed instance of `read_ready_returns_ready_nonempty`: a record with
non-empty content and `ready_at = 100`, stored once, is extracted exactly
once by the call at time 200 following the call at time 5. -/
theorem read_ready_returns_ready_nonempty_witness :
    (extractedRecords (readReady [Line.record ⟨some "a", some 100⟩] 5).2 200).count
        (⟨some "a", some 100⟩ : Record) = 1 :=
  (read_ready_returns_ready_nonempty [Line.record ⟨some "a", some 100⟩] 5 200
    ⟨some "a", some 100⟩).2.2.2 (by decide) (by decide) (by decide) (by decide)

/-- C7: lines that fail to parse as JSON never affect what `read_ready`
returns or keeps — the result equals that on the file with the malformed
lines removed — and on the concrete file with one invalid line and two
valid ready lines, exactly the two valid contents come back with an empty
remaining file. -/
theorem read_ready_discards_malformed (q : List Line) (now : Int) :
    readReady q now = readReady (q.filter fun l => !isMalformedLine l) now
    ∧ readReady [Line.malformed "oops", Line.record ⟨some "a", some 0⟩,
        Line.record ⟨some "b", some 0⟩] 10 = (["a", "b"], []) := by
  constructor
  · simp only [readReady]
    induction q with
    | nil => rfl
    | cons l rest ih =>
        cases l with
        | blank =>
            rw [List.filter_cons_of_pos (by rfl)]
            simpa [readReadyAux] using ih
        | malformed raw =>
            rw [List.filter_cons_of_neg (by simp [isMalformedLine])]
            simpa [readReadyAux] using ih
        | record rec =>
            rw [List.filter_cons_of_pos (by rfl)]
            by_cases h : isReadyRecord now rec <;> simp [readReadyAux, h, ih]
  · rfl

lemma count_remaining_of_falsy (rec : Record) (q : List Line) (now : Int)
    (hrec : contentTruthy rec = false) :
    (readReady q now).2.count (Line.record rec) = q.count (Line.record rec) := by
  rw [readReady_snd]
  have hb : keepLine now (Line.record rec) = true := by
    simp [keepLine, isReadyRecord, hrec]
  rw [List.count_filter (p := keepLine now) hb]

lemma multiExtract_count_of_falsy (rec : Record) (ts : List Int)
    (q : List Line) (hrec : contentTruthy rec = false) :
    (multiExtract ts q).count (Line.record rec) = q.count (Line.record rec) := by
  induction ts generalizing q with
  | nil => rfl
  | cons t ts ih =>
      rw [multiExtract, ih (readReady q t).2, count_remaining_of_falsy rec q t hrec]

/-- C9: a well-formed stored record whose `content` is missing or empty is
never selected by `read_ready` even when its `ready_at` has passed, its
line is kept by the rewrite with unchanged multiplicity, and any sequence
of extraction calls leaves its multiplicity in the store unchanged. -/
theorem falsy_content_retained (rec : Record) (q : List Line) (now : Int) :
    contentTruthy rec = false →
    rec ∉ extractedRecords q now
    ∧ (readReady q now).2.count (Line.record rec) = q.count (Line.record rec)
    ∧ ∀ ts : List Int,
        (multiExtract ts q).count (Line.record rec) = q.count (Line.record rec) := by
  intro hrec
  refine ⟨?_, count_remaining_of_falsy rec q now hrec, fun ts => multiExtract_count_of_falsy rec ts q hrec⟩
  intro hin
  have h1 : isReadyRecord now rec = true := List.of_mem_filter hin
  simp [isReadyRecord, hrec] at h1

/-- Closed instance of `falsy_content_retained`: a ready-by-time record
with empty content is not extracted at time 99, and two successive
extractions keep its line in the store. -/
theorem falsy_content_retained_witness :
    (⟨some "", some 0⟩ : Record) ∉ extractedRecords [Line.record ⟨some "", some 0⟩] 99
    ∧ (multiExtract [99, 1000] [Line.record ⟨some "", some 0⟩]).count
        (Line.record ⟨some "", some 0⟩)
      = [Line.record ⟨some "", some 0⟩].count (Line.record ⟨some "", some 0⟩) :=
  ⟨(falsy_content_retained ⟨some "", some 0⟩ [Line.record ⟨some "", some 0⟩] 99 rfl).1,
   (falsy_content_retained ⟨some "", some 0⟩ [Line.record ⟨some "", some 0⟩] 99 rfl).2.2 [99, 1000]⟩

/-- C6 counterexample: in periodic mode with a configured retry interval of
300, an explicit delay of 0 seconds yields `ready_at = now + 300`, not
`now + 0`: Python's `delay_seconds or retry_delay` treats 0 as absent. -/
theorem enqueue_zero_delay_counterexample :
    enqueueReadyAt ⟨none, some 300, none⟩ 1000 (some 0) = 1300
    ∧ (1300 : Int) ≠ 1000 + 0 :=
  ⟨rfl, by decide⟩

/-- C6 (amended): `enqueue` stores `ready_at = now` when a daily dispatch
time is configured; otherwise `now + delay` when a non-zero delay is
passed, and `now +` the configured retry interval (default 0) when the
delay is omitted **or zero**; the record is appended after the existing
records, leaving them unchanged. -/
theorem enqueue_ready_at_by_mode (cfg : Config) (now : Int) (q : List Line)
    (content : String) (delay : Option Int) :
    (dailyConfigured cfg = true → enqueueReadyAt cfg now delay = now)
    ∧ (dailyConfigured cfg = false → ∀ d : Int, delay = some d → d ≠ 0 →
        enqueueReadyAt cfg now delay = now + d)
    ∧ (dailyConfigured cfg = false → (delay = none ∨ delay = some 0) →
        enqueueReadyAt cfg now delay = now + cfg.retryDelaySeconds.getD 0)
    ∧ enqueue cfg now q content delay
        = q ++ [Line.record ⟨some content, some (enqueueReadyAt cfg now delay)⟩] := by
  refine ⟨fun hd => ?_, fun hd d hds hdz => ?_, fun hd hz => ?_, rfl⟩
  · simp [enqueueReadyAt, hd]
  · simp [enqueueReadyAt, hd, hds, hdz]
  · rcases hz with hz | hz <;> simp [enqueueReadyAt, hd, hz]

/-- Closed instance of `enqueue_ready_at_by_mode`: with a daily dispatch
time configured, `ready_at` is `now` even though a delay of 120 was
passed. -/
theorem enqueue_ready_at_by_mode_witness :
    enqueueReadyAt ⟨some "03:00", some 300, none⟩ 1000 (some 120) = 1000 :=
  (enqueue_ready_at_by_mode ⟨some "03:00", some 300, none⟩ 1000 [] "s"
    (some 120)).1 (by decide)

/-- C3 counterexample: with a daily dispatch time configured, a transient
failure (status 503) carrying `Retry-After: 120` is re-queued with
`ready_at = now`, not `now + 120` — `enqueue` ignores `delay_seconds` in
daily mode. -/
theorem retry_after_ignored_in_daily_mode :
    (processRecord ⟨some "03:00", some 0, none⟩
        ⟨fun _ => SendOutcome.httpFailure (some 503) (some 120),
         fun _ => some Json.null, fun _ => ""⟩
        1000 ⟨[], []⟩ "stmt").2.queue
      = [Line.record ⟨some "stmt", some 1000⟩]
    ∧ (1000 : Int) ≠ 1000 + 120 :=
  ⟨rfl, by decide⟩

/-- C3 (amended): for a content whose payload parses (so the send took
place and a response exists), a transient failure is re-queued with
`ready_at = enqueueReadyAt cfg now retryAfter`, which honors the
Retry-After hint of `d ≠ 0` seconds as `now + d` only when no daily
dispatch time is configured; in daily mode the hint is ignored and the
record is immediately eligible (`ready_at = now`); without a hint the
re-queue mirrors the default for the scheduling mode (`now` in daily mode,
`now +` retry interval in periodic mode). -/
theorem retry_after_requeue_by_mode (cfg : Config) (env : Env) (now : Int)
    (st : BState) (content : String) (status : Option Int) (ra : Option Int) :
    sinkConfigured cfg = false →
    env.parse content ≠ none →
    env.send content = SendOutcome.httpFailure status ra →
    (is_not_found status || retryableStatus status) = true →
    (processRecord cfg env now st content).2.queue
        = st.queue ++ [Line.record ⟨some content, some (enqueueReadyAt cfg now ra)⟩]
    ∧ (dailyConfigured cfg = true → enqueueReadyAt cfg now ra = now)
    ∧ (dailyConfigured cfg = false → ∀ d : Int, ra = some d → d ≠ 0 →
        enqueueReadyAt cfg now ra = now + d)
    ∧ (dailyConfigured cfg = false → ra = none →
        enqueueReadyAt cfg now ra = now + cfg.retryDelaySeconds.getD 0) := by
  intro hs hparse hsend hcond
  cases hp : env.parse content with
  | none => exact absurd hp hparse
  | some payload =>
  refine ⟨?_, fun hd => ?_, fun hd d hds hdz => ?_, fun hd hz => ?_⟩
  · simp [processRecord, hs, hp, hsend, hcond, enqueue]
  · simp [enqueueReadyAt, hd]
  · simp [enqueueReadyAt, hd, hds, hdz]
  · simp [enqueueReadyAt, hd, hz]

/-- Closed instance of `retry_after_requeue_by_mode`: in periodic mode a
503 with `Retry-After: 120` at `now = 1000` re-queues the content with
`ready_at = 1120`. -/
theorem retry_after_requeue_by_mode_witness :
    (processRecord ⟨none, some 7, none⟩
        ⟨fun _ => SendOutcome.httpFailure (some 503) (some 120),
         fun _ => some Json.null, fun _ => ""⟩
        1000 ⟨[], []⟩ "s").2.queue
      = [] ++ [Line.record ⟨some "s",
          some (enqueueReadyAt ⟨none, some 7, none⟩ 1000 (some 120))⟩] :=
  (retry_after_requeue_by_mode ⟨none, some 7, none⟩
    ⟨fun _ => SendOutcome.httpFailure (some 503) (some 120),
     fun _ => some Json.null, fun _ => ""⟩
    1000 ⟨[], []⟩ "s" (some 503) (some 120) rfl
    (fun h => Option.noConfusion h) rfl (by decide)).1

/-- C5: an unsuccessful delivery response (the content parsed, so the send
took place) is re-queued exactly when the
backend classifies the status as not-found (default 404) or the status is
in the retryable set {408, 429, 500, 502, 503, 504}; any other error
status leaves the state untouched (logged, dropped); and the retry
condition is exactly membership in that seven-status set. -/
theorem failure_requeued_iff_retryable (cfg : Config) (env : Env) (now : Int)
    (st : BState) (content : String) (status : Option Int) (ra : Option Int) :
    sinkConfigured cfg = false →
    env.parse content ≠ none →
    env.send content = SendOutcome.httpFailure status ra →
    ((is_not_found status || retryableStatus status) = true →
        (processRecord cfg env now st content).2.queue
          = st.queue ++ [Line.record ⟨some content, some (enqueueReadyAt cfg now ra)⟩])
    ∧ ((is_not_found status || retryableStatus status) = false →
        (processRecord cfg env now st content).2 = st)
    ∧ ((is_not_found status || retryableStatus status) = true ↔
        status = some 404 ∨ status = some 408 ∨ status = some 429
        ∨ status = some 500 ∨ status = some 502 ∨ status = some 503
        ∨ status = some 504) := by
  intro hs hparse hsend
  cases hp : env.parse content with
  | none => exact absurd hp hparse
  | some payload =>
  refine ⟨fun hc => ?_, fun hc => ?_, ?_⟩
  · simp [processRecord, hs, hp, hsend, hc, enqueue]
  · simp [processRecord, hs, hp, hsend, hc]
  · cases status with
    | none => simp [is_not_found, retryableStatus]
    | some n =>
        simp only [is_not_found, retryableStatus, Bool.or_eq_true, decide_eq_true_eq,
          Option.some.injEq]
        omega

/-- Closed instance of `failure_requeued_iff_retryable`: a 408 response is
re-queued; the state is extended by exactly one record. -/
theorem failure_requeued_iff_retryable_witness :
    (processRecord ⟨some "03:00", none, none⟩
        ⟨fun _ => SendOutcome.httpFailure (some 408) none,
         fun _ => some Json.null, fun _ => ""⟩
        50 ⟨[], []⟩ "x").2.queue
      = [] ++ [Line.record ⟨some "x",
          some (enqueueReadyAt ⟨some "03:00", none, none⟩ 50 none)⟩] :=
  (failure_requeued_iff_retryable ⟨some "03:00", none, none⟩
    ⟨fun _ => SendOutcome.httpFailure (some 408) none,
     fun _ => some Json.null, fun _ => ""⟩
    50 ⟨[], []⟩ "x" (some 408) none rfl (fun h => Option.noConfusion h) rfl).1 (by decide)

/-- C10 counterexample: in live-delivery mode, a stored content that fails
`json.loads` (line 193) is dropped by the outer `except Exception`
(lines 232-234): the queue is unchanged and the record counts as failed,
although no delivery response arrived at all — the send oracle here
reports success for every content, so no non-retryable error status
exists.  This refutes "a record's content is permanently dropped only when
a delivery response arrives with a non-retryable error status". -/
theorem unparseable_content_dropped :
    (processRecord ⟨some "03:00", none, none⟩
        ⟨fun _ => SendOutcome.success, fun _ => none, fun _ => ""⟩
        10 ⟨[Line.record ⟨some "keep", some 99⟩], []⟩ "not json").1 = false
    ∧ (processRecord ⟨some "03:00", none, none⟩
        ⟨fun _ => SendOutcome.success, fun _ => none, fun _ => ""⟩
        10 ⟨[Line.record ⟨some "keep", some 99⟩], []⟩ "not json").2.queue
      = [Line.record ⟨some "keep", some 99⟩]
    ∧ (⟨fun _ => SendOutcome.success, fun _ => none, fun _ => ""⟩ : Env).send "not json"
      = SendOutcome.success :=
  ⟨rfl, rfl, rfl⟩

/-- C10 (amended): in live-delivery mode, for every record whose content
parses as JSON, any raised exception during the send — transport-level or
not — re-enqueues the content; a success leaves the state unchanged; and
among parsed records the queue is left unchanged on a failure only by a
delivery response whose status fails both the not-found and the
retryable-set tests.  A content that fails JSON parsing (line 193),
however, is dropped by the outer exception handler (lines 232-234) with no
re-enqueue and no delivery attempt. -/
theorem send_exception_requeues (cfg : Config) (env : Env) (now : Int)
    (st : BState) (content : String) :
    sinkConfigured cfg = false →
    (env.parse content ≠ none →
        (∀ transport : Bool, env.send content = SendOutcome.raised transport →
            (processRecord cfg env now st content).2.queue
              = st.queue ++ [Line.record ⟨some content, some (enqueueReadyAt cfg now none)⟩])
        ∧ (env.send content = SendOutcome.success →
            (processRecord cfg env now st content).2 = st
            ∧ (processRecord cfg env now st content).1 = true)
        ∧ (∀ status ra, env.send content = SendOutcome.httpFailure status ra →
            (processRecord cfg env now st content).2.queue = st.queue →
            (is_not_found status || retryableStatus status) = false))
    ∧ (env.parse content = none →
        processRecord cfg env now st content = (false, st)) := by
  intro hs
  constructor
  · intro hparse
    cases hp : env.parse content with
    | none => exact absurd hp hparse
    | some payload =>
    refine ⟨fun transport hsend => ?_, fun hsend => ?_, fun status ra hsend hq => ?_⟩
    · cases transport <;> simp [processRecord, hs, hp, hsend, enqueue]
    · simp [processRecord, hs, hp, hsend]
    · by_cases hc : (is_not_found status || retryableStatus status) = true
      · exfalso
        rw [processRecord] at hq
        simp only [hs, Bool.false_eq_true, if_false, hp, hsend, hc, if_true] at hq
        simp [enqueue] at hq
      · simpa using hc
  · intro hp
    simp [processRecord, hs, hp]

/-- Closed instance of `send_exception_requeues`: a parsed content whose
send raises a generic (non-transport) exception is re-enqueued. -/
theorem send_exception_requeues_witness :
    (processRecord ⟨some "03:00", none, none⟩
        ⟨fun _ => SendOutcome.raised false, fun _ => some Json.null, fun _ => ""⟩
        70 ⟨[], []⟩ "y").2.queue
      = [] ++ [Line.record ⟨some "y",
          some (enqueueReadyAt ⟨some "03:00", none, none⟩ 70 none)⟩] :=
  (((send_exception_requeues ⟨some "03:00", none, none⟩
    ⟨fun _ => SendOutcome.raised false, fun _ => some Json.null, fun _ => ""⟩
    70 ⟨[], []⟩ "y" rfl).1 (fun h => Option.noConfusion h)).1) false rfl

/-- C8: appending content to the sink only extends it (prior entries are
never deleted or rewritten): a parsed collection is written one dumped
element per line, a parsed non-collection value as one dumped line, and
unparseable content verbatim as one fallback line; with a sink file
configured `_save_to_sink` performs exactly this append. -/
theorem sink_append_extends_and_flattens (cfg : Config) (dumps : Json → String)
    (sink : List String) (content : String) (parsed : Option Json) :
    sink <+: sinkAppend dumps sink content parsed
    ∧ (∀ elems, parsed = some (Json.arr elems) →
        sinkAppend dumps sink content parsed = sink ++ elems.map dumps)
    ∧ (∀ j, parsed = some j → isArr j = false →
        sinkAppend dumps sink content parsed = sink ++ [dumps j])
    ∧ (parsed = none → sinkAppend dumps sink content parsed = sink ++ [content])
    ∧ (sinkConfigured cfg = true →
        saveToSink cfg dumps sink content parsed = sinkAppend dumps sink content parsed) := by
  refine ⟨?_, fun elems hp => ?_, fun j hp hj => ?_, fun hp => ?_, fun hc => ?_⟩
  · match parsed with
    | some (Json.arr elems) => exact ⟨elems.map dumps, rfl⟩
    | some Json.null => exact ⟨[dumps Json.null], rfl⟩
    | some (Json.bool b) => exact ⟨[dumps (Json.bool b)], rfl⟩
    | some (Json.num n) => exact ⟨[dumps (Json.num n)], rfl⟩
    | some (Json.str s) => exact ⟨[dumps (Json.str s)], rfl⟩
    | some (Json.obj fields) => exact ⟨[dumps (Json.obj fields)], rfl⟩
    | none => exact ⟨[content], rfl⟩
  · rw [hp]; rfl
  · rw [hp]
    cases j with
    | arr elems => exact absurd hj (by simp [isArr])
    | null => rfl
    | bool b => rfl
    | num n => rfl
    | str s => rfl
    | obj fields => rfl
  · rw [hp]; rfl
  · simp [saveToSink, hc]

/-- Closed instance of `sink_append_extends_and_flattens`: a parsed
two-element collection appends exactly its two dumped elements after the
existing sink line. -/
theorem sink_append_extends_and_flattens_witness :
    sinkAppend (fun _ => "d") ["old"] "raw" (some (Json.arr [Json.null, Json.bool true]))
      = ["old"] ++ [Json.null, Json.bool true].map (fun _ => "d") :=
  (sink_append_extends_and_flattens ⟨none, none, some "sink.jsonl"⟩
    (fun _ => "d") ["old"] "raw" (some (Json.arr [Json.null, Json.bool true]))).2.1
    [Json.null, Json.bool true] rfl

lemma processRecord_not_success (cfg : Config) (env : Env) (now : Int)
    (st : BState) (content : String)
    (hs : sinkConfigured cfg = false)
    (hn : env.send content ≠ SendOutcome.success) :
    (processRecord cfg env now st content).1 = false
    ∧ ∃ part, (processRecord cfg env now st content).2.queue = st.queue ++ part := by
  cases hp : env.parse content with
  | none =>
      exact ⟨by simp [processRecord, hs, hp], ⟨[], by simp [processRecord, hs, hp]⟩⟩
  | some payload =>
      cases hsend : env.send content with
      | success => exact absurd hsend hn
      | httpFailure status ra =>
          by_cases hc : (is_not_found status || retryableStatus status) = true
          · refine ⟨by simp [processRecord, hs, hp, hsend, hc], ?_⟩
            exact ⟨[Line.record ⟨some content, some (enqueueReadyAt cfg now ra)⟩],
              by simp [processRecord, hs, hp, hsend, hc, enqueue]⟩
          · refine ⟨by simp [processRecord, hs, hp, hsend, hc],
              ⟨[], by simp [processRecord, hs, hp, hsend, hc]⟩⟩
      | raised transport =>
          refine ⟨by cases transport <;> simp [processRecord, hs, hp, hsend], ?_⟩
          exact ⟨[Line.record ⟨some content, some (enqueueReadyAt cfg now none)⟩],
            by cases transport <;> simp [processRecord, hs, hp, hsend, enqueue]⟩

lemma requeueRest_queue (cfg : Config) (now : Int) (st : BState)
    (rest : List String) (hd : dailyConfigured cfg = true) :
    (requeueRest cfg now st rest).queue
      = st.queue ++ rest.map (fun c => Line.record ⟨some c, some now⟩) := by
  induction rest generalizing st with
  | nil => simp [requeueRest]
  | cons c cs ih =>
      simp only [requeueRest, List.foldl_cons] at ih ⊢
      rw [ih]
      simp [enqueue, enqueueReadyAt, hd]

lemma mem_ready_contents (q : List Line) (now : Int) (c : String)
    (h : c ∈ (readReady q now).1) : c.isEmpty = false := by
  rw [readReady_fst] at h
  obtain ⟨rec, hrec, hc⟩ := List.mem_map.mp h
  have ht : isReadyRecord now rec = true := List.of_mem_filter hrec
  have htr : contentTruthy rec = true := by
    simp only [isReadyRecord, Bool.and_eq_true] at ht
    exact ht.2
  cases hcontent : rec.content with
  | none => simp [contentTruthy, hcontent] at htr
  | some s =>
      simp only [contentTruthy, hcontent, Bool.not_eq_true'] at htr
      rw [getContent, hcontent, Option.getD_some] at hc
      rw [← hc]
      exact htr

/-- C4: in daily live-delivery mode, when the extracted batch has a probe
`f` and a non-empty remainder `r` and delivering the probe fails (any
outcome other than success), the cycle attempts delivery only on the
probe, pushes every remaining content back into the queue store with its
content unchanged, and each pushed-back record is ready (`ready_at = now`),
hence still eligible at the next daily window. -/
theorem probe_failure_requeues_rest (cfg : Config) (env : Env) (now : Int)
    (st : BState) (f : String) (r : List String) :
    sinkConfigured cfg = false →
    dailyConfigured cfg = true →
    (readReady st.queue now).1 = f :: r →
    r ≠ [] →
    env.send f ≠ SendOutcome.success →
    (runCycle cfg env now st).2 = [f]
    ∧ (∃ probePart : List Line,
        (runCycle cfg env now st).1.queue
          = (readReady st.queue now).2 ++ probePart
            ++ r.map (fun c => Line.record ⟨some c, some now⟩))
    ∧ ∀ c ∈ r, isReadyRecord now ⟨some c, some now⟩ = true := by
  intro hs hd hready hr hns
  obtain ⟨hfail, part, hpart⟩ :=
    processRecord_not_success cfg env now ⟨(readReady st.queue now).2, st.sink⟩ f hs hns
  have hrempty : r.isEmpty = false := by
    cases r with
    | nil => exact absurd rfl hr
    | cons a as => rfl
  have hcycle : runCycle cfg env now st
      = (requeueRest cfg now
          (processRecord cfg env now ⟨(readReady st.queue now).2, st.sink⟩ f).2 r, [f]) := by
    simp only [runCycle, hready, List.take_succ_cons, List.take_zero, List.drop_succ_cons,
      List.drop_zero, processBatch, List.foldl_cons, List.foldl_nil, Bool.true_and,
      hfail, hrempty, Bool.false_and, Bool.not_false, Bool.and_self]
    rfl
  refine ⟨by rw [hcycle], ⟨part, ?_⟩, fun c hc => ?_⟩
  · rw [hcycle]
    simp only []
    rw [requeueRest_queue cfg now _ r hd, hpart]
  · have hmem : c ∈ (readReady st.queue now).1 := by
      rw [hready]
      exact List.mem_cons_of_mem f hc
    have := mem_ready_contents st.queue now c hmem
    simp [isReadyRecord, getReadyAt, contentTruthy, this]

/-- Closed instance of `probe_failure_requeues_rest`: three ready records,
probe send raises; only "a" is attempted. -/
theorem probe_failure_requeues_rest_witness :
    (runCycle ⟨some "03:00", none, none⟩
        ⟨fun _ => SendOutcome.raised false, fun _ => some Json.null, fun _ => ""⟩
        10
        ⟨[Line.record ⟨some "a", some 0⟩, Line.record ⟨some "b", some 0⟩,
          Line.record ⟨some "c", some 0⟩], []⟩).2 = ["a"] :=
  (probe_failure_requeues_rest ⟨some "03:00", none, none⟩
    ⟨fun _ => SendOutcome.raised false, fun _ => some Json.null, fun _ => ""⟩
    10
    ⟨[Line.record ⟨some "a", some 0⟩, Line.record ⟨some "b", some 0⟩,
      Line.record ⟨some "c", some 0⟩], []⟩
    "a" ["b", "c"] rfl rfl (by decide) (by decide)
    (fun h => SendOutcome.noConfusion h)).1

end RetryQueueModel
